import Mathlib

/-!
Verification of the compression core of magiskboot
(`src/native/jni/magiskboot/compress.cpp`, `src/native/jni/utils/stream.cpp`).

Byte sequences are modelled as `List Nat` (each element one byte).  The
underlying codec library primitives (zlib, bzlib, liblzma, lz4, lz4hc,
lz4frame) are opaque to this repository and are modelled as function
parameters; everything else is translated from the C++ source.  Out-of-bounds
reads and unsigned underflow (undefined behavior in the source) are modelled
as `none`.
-/

namespace Magiskboot

/-- `LZ4_UNCOMPRESSED` from compress.cpp line 28: the 8 MiB super-block size of
the legacy LZ4 container. -/
def LZ4_UNCOMPRESSED : Nat := 0x800000

/-- Little-endian 4-byte encoding of a 32-bit value, as produced by
`bwrite(&x, sizeof(x))` on a little-endian target. -/
def le32 (n : Nat) : List Nat :=
  [n % 256, n / 2 ^ 8 % 256, n / 2 ^ 16 % 256, n / 2 ^ 24 % 256]

/-- Little-endian 4-byte read, as performed by `*((unsigned *) inbuf)`
(compress.cpp line 426) on a little-endian target.  Only the first four list
elements are used; callers must ensure at least four bytes are present. -/
def rdle32 (l : List Nat) : Nat :=
  l.getD 0 0 + 2 ^ 8 * l.getD 1 0 + 2 ^ 16 * l.getD 2 0 + 2 ^ 24 * l.getD 3 0

/-- The legacy LZ4 container magic `"\x02\x21\x4c\x18"` (compress.cpp
line 477). -/
def lz4_magic : List Nat := [0x02, 0x21, 0x4c, 0x18]

/-- State of `LZ4_decoder` (compress.cpp lines 402-461).  The C++ fields
`buffer` (partial compressed block) and `buf_off` (its fill offset) are
modelled as the single list `buffer` with `buffer.length = buf_off`; the
bytes of `buffer` past `buf_off` are never read by the source before being
overwritten, so they carry no information. -/
structure LZ4_decoder where
  init : Bool
  block_sz : Nat
  buffer : List Nat
deriving DecidableEq, Repr

/-- One iteration of the `do { ... } while (size != 0)` body of
`LZ4_decoder::write` (compress.cpp lines 424-451).  `dec` is the opaque
`LZ4_decompress_safe` primitive: `none` models a negative return value.
Returns the new state, the unconsumed input, and the bytes forwarded to the
sink, or `none` when the source would return -1 or read past the caller's
buffer (the 4-byte length read at line 426 is unguarded: with fewer than 4
bytes left it reads beyond the `write` call's buffer and `size -= 4`
underflows `size_t` - undefined behavior). -/
def LZ4_decoder.step (dec : List Nat → Option (List Nat)) (s : LZ4_decoder)
    (input : List Nat) : Option (LZ4_decoder × List Nat × List Nat) :=
  if s.block_sz = 0 then
    if input.length < 4 then
      none
    else
      some (⟨s.init, rdle32 input, s.buffer⟩, input.drop 4, [])
  else if s.block_sz ≤ s.buffer.length + input.length then
    (dec ((s.buffer ++ input.take (s.block_sz - s.buffer.length)).take s.block_sz)).map
      fun out => (⟨s.init, 0, []⟩, input.drop (s.block_sz - s.buffer.length), out)
  else
    some (⟨s.init, s.block_sz, s.buffer ++ input⟩, [], [])

/-- The `do { ... } while (size != 0)` loop of `LZ4_decoder::write`, by
explicit fuel.  The body runs at least once (do-while); the loop recurses
only while unconsumed input remains.  Fuel `2 * input.length + 2` (supplied
by `LZ4_decoder.write`) strictly exceeds the iteration count: every
iteration either consumes at least 4 input bytes, or zeroes `block_sz` so
that the following iteration consumes 4 bytes or is the last
(`LZ4_decoder.loopFuel_irrelevant` below makes this precise), so the fuel-out
branch is unreachable from the wrapper. -/
def LZ4_decoder.loop (dec : List Nat → Option (List Nat)) :
    Nat → LZ4_decoder → List Nat → Option (LZ4_decoder × List Nat)
  | 0, _, _ => none
  | fuel + 1, s, input =>
    (LZ4_decoder.step dec s input).bind fun r =>
      if r.2.1.isEmpty then
        some (r.1, r.2.2)
      else
        (LZ4_decoder.loop dec fuel r.1 r.2.1).map fun r' => (r'.1, r.2.2 ++ r'.2)

/-- `LZ4_decoder::write` (compress.cpp lines 413-453).  On the first call the
4-byte magic is skipped (`inbuf += 4; size -= 4`); a first call holding fewer
than 4 bytes underflows the unsigned `size` (undefined behavior, modelled as
`none`).  On success the source returns the original `size` (non-negative);
failure returns -1; so `none` here corresponds exactly to the negative
return/undefined-behavior cases. -/
def LZ4_decoder.write (dec : List Nat → Option (List Nat)) (s : LZ4_decoder)
    (input : List Nat) : Option (LZ4_decoder × List Nat) :=
  if s.init then
    LZ4_decoder.loop dec (2 * input.length + 2) s input
  else if input.length < 4 then
    none
  else
    LZ4_decoder.loop dec (2 * (input.length - 4) + 2) ⟨true, s.block_sz, s.buffer⟩
      (input.drop 4)

/-- Delivering a sequence of `write` calls to `LZ4_decoder`, concatenating
the bytes forwarded to the sink. -/
def LZ4_decoder.writes (dec : List Nat → Option (List Nat)) (s : LZ4_decoder) :
    List (List Nat) → Option (LZ4_decoder × List Nat)
  | [] => some (s, [])
  | c :: cs =>
    (LZ4_decoder.write dec s c).bind fun r =>
      (LZ4_decoder.writes dec r.1 cs).map fun r' => (r'.1, r.2 ++ r'.2)

/-- A concrete stand-in for the opaque `LZ4_decompress_safe` primitive, used
to evaluate the framing layer on closed inputs: it "decompresses" a block to
itself and never fails. -/
def idDec : List Nat → Option (List Nat) := fun l => some l

/-- State of `LZ4_encoder` (compress.cpp lines 463-529).  As for the decoder,
the C++ accumulation buffer `buf` plus its fill offset `buf_off` are modelled
as the single list `buf` with `buf.length = buf_off`.  `in_total` is the
`unsigned` running total of all bytes ever passed to `write`; every update
is taken modulo `2 ^ 32`. -/
structure LZ4_encoder where
  init : Bool
  buf : List Nat
  in_total : Nat
deriving DecidableEq, Repr

/-- The `do { ... } while (size != 0)` loop of `LZ4_encoder::write`
(compress.cpp lines 486-509), by explicit fuel.  `hc` is the opaque
`LZ4_compress_HC` primitive; `none` models a zero return value ("LZ4HC
compression failure"), on which the source does `return false` - the loop
result's boolean records whether that happened.  Returns
(success, new accumulation buffer, bytes forwarded to the sink).  Fuel
`input.length + 2` (supplied by `LZ4_encoder.write`) exceeds the iteration
count: each flush iteration consumes `LZ4_UNCOMPRESSED - buf.length ≥ 1`
input bytes (or resets an over-full buffer once), and the accumulate branch
is terminal, so the fuel-out branch is unreachable from the wrapper
(`LZ4_encoder.encLoopFuel_irrelevant` below makes this precise). -/
def LZ4_encoder.loop (hc : List Nat → Option (List Nat)) :
    Nat → List Nat → List Nat → Bool × List Nat × List Nat
  | 0, buf, _ => (false, buf, [])
  | fuel + 1, buf, input =>
    if LZ4_UNCOMPRESSED ≤ buf.length + input.length then
      let consumed := LZ4_UNCOMPRESSED - buf.length
      match hc ((buf ++ input.take consumed).take LZ4_UNCOMPRESSED) with
      | none => (false, buf ++ input.take consumed, [])
      | some cdata =>
        let rest := input.drop consumed
        if rest.isEmpty then
          (true, [], le32 cdata.length ++ cdata)
        else
          let r := LZ4_encoder.loop hc fuel [] rest
          (r.1, r.2.1, le32 cdata.length ++ cdata ++ r.2.2)
    else
      (true, buf ++ input, [])

/-- `LZ4_encoder::write` (compress.cpp lines 475-511).  Returns the C++
return value (`true` = 1, `false` = 0 on LZ4HC failure, 0 on a zero-length
call), the new state and the bytes forwarded to the sink.  The magic is
emitted once, on the first call - even a zero-length one; `in_total` is
bumped (mod 2^32) by every nonzero write before any compression happens. -/
def LZ4_encoder.write (hc : List Nat → Option (List Nat)) (s : LZ4_encoder)
    (input : List Nat) : Int × LZ4_encoder × List Nat :=
  let pre : List Nat := if s.init then [] else lz4_magic
  if input.length = 0 then
    (0, ⟨true, s.buf, s.in_total⟩, pre)
  else
    let total := (s.in_total + input.length) % 2 ^ 32
    let r := LZ4_encoder.loop hc (input.length + 2) s.buf input
    (if r.1 then 1 else 0, ⟨true, r.2.1, total⟩, pre ++ r.2.2)

/-- `LZ4_encoder::finish` (compress.cpp lines 514-521): compress and emit the
leftover buffer as a final block only when it is nonempty (`if (buf_off)`),
then unconditionally emit the 4-byte running total.  The source does not
check `LZ4_compress_HC`'s result here; a zero return (modelled `none`) makes
it emit a zero length prefix and no data, which `Option.getD []` renders
exactly. -/
def LZ4_encoder.finish (hc : List Nat → Option (List Nat)) (s : LZ4_encoder) :
    List Nat :=
  (if s.buf.length ≠ 0 then
    le32 ((hc s.buf).getD []).length ++ (hc s.buf).getD []
  else []) ++ le32 s.in_total

/-- Delivering a sequence of `write` calls to `LZ4_encoder`, concatenating
the bytes forwarded to the sink (return codes are not consulted here; the
source bumps `in_total` before any failure can occur). -/
def LZ4_encoder.writes (hc : List Nat → Option (List Nat)) (s : LZ4_encoder) :
    List (List Nat) → LZ4_encoder × List Nat
  | [] => (s, [])
  | c :: cs =>
    let r := LZ4_encoder.write hc s c
    let r' := LZ4_encoder.writes hc r.2.1 cs
    (r'.1, r.2.2 ++ r'.2)

/-- The multiplexer's failure check: both `compress` (line 650) and
`decompress` (line 607) abort via `LOGE` exactly when the adapter's `write`
returns a negative value: `if (strm->write(buf, len) < 0)`. -/
def write_failed (r : Int) : Bool := r < 0

/-- A concrete stand-in for the always-failing `LZ4_compress_HC` primitive
(zero return value on every call). -/
def hcFail : List Nat → Option (List Nat) := fun _ => none

/-- A concrete stand-in for a successful `LZ4_compress_HC` primitive: it
"compresses" a block by prepending one byte and never fails. -/
def hcCons : List Nat → Option (List Nat) := fun l => some (0 :: l)

/-- A codec adapter together with the base `FILE *` handle of its
`filter_stream` (stream.cpp lines 57-70): `fp = true` while the handle is
non-null, `fp = false` after `filter_stream::close` nulled it. -/
structure cpr_stream (σ : Type) where
  inner : σ
  fp : Bool
deriving DecidableEq, Repr

/-- `cpr_stream::close` for the legacy LZ4 encoder (compress.cpp lines
39-42): run `finish()` - whose `bwrite` calls go through the base `FILE *` -
then `filter_stream::close` (stream.cpp lines 61-65), which `fclose`s the
handle and nulls it.  When the handle is already null, `finish`'s
`fwrite(..., nullptr)` and `fclose(nullptr)` are undefined behavior,
modelled as `none`. -/
def LZ4_encoder.close (hc : List Nat → Option (List Nat))
    (c : cpr_stream LZ4_encoder) : Option (cpr_stream LZ4_encoder × List Nat) :=
  if c.fp then some (⟨c.inner, false⟩, LZ4_encoder.finish hc c.inner) else none

/-- `cpr_stream::destroy` as invoked from `~LZ4_encoder` (compress.cpp lines
47 and 469-473): `if (fp) finish();` - the final flush runs only while the
base handle is still open, so destruction after `close` emits nothing. -/
def LZ4_encoder.destroy (hc : List Nat → Option (List Nat))
    (c : cpr_stream LZ4_encoder) : List Nat :=
  if c.fp then LZ4_encoder.finish hc c.inner else []

/-- State of `LZ4F_decoder` (compress.cpp lines 282-335).  `outCap` is `none`
while `outbuf` is still the null pointer (header not yet parsed), and holds
the allocated `outCapacity` afterwards.  `ctx` is an opaque index for the
library's `LZ4F_decompressionContext_t`. -/
structure LZ4F_decoder where
  outCap : Option Nat
  ctx : Nat
deriving DecidableEq, Repr

/-- The `switch (info.blockSizeID)` of `LZ4F_decoder::read_header`
(compress.cpp lines 324-330).  The LZ4F enumeration values are
`LZ4F_default = 0`, `LZ4F_max64KB = 4`, `LZ4F_max256KB = 5`,
`LZ4F_max1MB = 6`, `LZ4F_max4MB = 7`.  Any other value matches no case and
leaves `outCapacity` uninitialized - undefined behavior, modelled `none`. -/
def blockCap : Nat → Option Nat
  | 0 => some (2 ^ 16)
  | 4 => some (2 ^ 16)
  | 5 => some (2 ^ 18)
  | 6 => some (2 ^ 20)
  | 7 => some (2 ^ 22)
  | _ => none

/-- The `do { ... } while (len != 0 || write != 0)` loop of
`LZ4F_decoder::write` (compress.cpp lines 300-311), by explicit fuel.
`dcmp` is the opaque `LZ4F_decompress` primitive: given the context, the
output capacity and the remaining input it yields the new context, the
number of input bytes consumed and the bytes produced, or `none` on
`LZ4F_isError`.  Because the iteration count is controlled entirely by the
opaque library, the fuel is a parameter of the model; theorems below either
hold for every fuel or instantiate it concretely. -/
def LZ4F_decoder.loop (dcmp : Nat → Nat → List Nat → Option (Nat × Nat × List Nat)) :
    Nat → Nat → Nat → List Nat → Option (Nat × List Nat)
  | 0, _, _, _ => none
  | fuel + 1, ctx, cap, input =>
    (dcmp ctx cap input).bind fun r =>
      if (input.drop r.2.1).isEmpty ∧ r.2.2.isEmpty then
        some (r.1, r.2.2)
      else
        (LZ4F_decoder.loop dcmp fuel r.1 cap (input.drop r.2.1)).map fun r' =>
          (r'.1, r.2.2 ++ r'.2)

/-- `LZ4F_decoder::write` (compress.cpp lines 293-313) with `read_header`
(lines 320-334) inlined.  `gfi` is the opaque `LZ4F_getFrameInfo` primitive
restricted to what the adapter reads from it: on a buffer containing a
complete, valid frame header it yields `(info.blockSizeID, bytes consumed)`;
otherwise it reports an error (`none`).  The source ignores that error and
switches on the then-uninitialized `info.blockSizeID` - undefined behavior,
modelled as `none`.  The header is probed only when `outbuf` is still null,
i.e. only on the first `write` call. -/
def LZ4F_decoder.write (gfi : List Nat → Option (Nat × Nat))
    (dcmp : Nat → Nat → List Nat → Option (Nat × Nat × List Nat)) (fuel : Nat)
    (s : LZ4F_decoder) (input : List Nat) : Option (LZ4F_decoder × List Nat) :=
  match s.outCap with
  | some cap =>
    (LZ4F_decoder.loop dcmp fuel s.ctx cap input).map fun r =>
      (⟨some cap, r.1⟩, r.2)
  | none =>
    match gfi input with
    | none => none
    | some (bsid, consumed) =>
      match blockCap bsid with
      | none => none
      | some cap =>
        (LZ4F_decoder.loop dcmp fuel s.ctx cap (input.drop consumed)).map fun r =>
          (⟨some cap, r.1⟩, r.2)

/-- Delivering a sequence of `write` calls to `LZ4F_decoder`, concatenating
the bytes forwarded to the sink. -/
def LZ4F_decoder.writes (gfi : List Nat → Option (Nat × Nat))
    (dcmp : Nat → Nat → List Nat → Option (Nat × Nat × List Nat)) (fuel : Nat)
    (s : LZ4F_decoder) : List (List Nat) → Option (LZ4F_decoder × List Nat)
  | [] => some (s, [])
  | c :: cs =>
    (LZ4F_decoder.write gfi dcmp fuel s c).bind fun r =>
      (LZ4F_decoder.writes gfi dcmp fuel r.1 cs).map fun r' => (r'.1, r.2 ++ r'.2)

/-- A concrete stand-in for the opaque `LZ4F_getFrameInfo` primitive, for a
frame whose header is 7 bytes (the minimal size) with block-size ID 7
(`LZ4F_max4MB`): with the full header present it consumes exactly the header;
on a shorter buffer it reports `frameHeader_incomplete`, consuming nothing
and leaving the caller's `LZ4F_frameInfo_t` unset. -/
def gfiMin : List Nat → Option (Nat × Nat) := fun l =>
  if 7 ≤ l.length then some (7, 7) else none

/-- A concrete stand-in for the opaque `LZ4F_decompress` primitive: consumes
all offered input and echoes it as output, never failing and never holding
buffered output (a stored/uncompressed frame body). -/
def dcmpEcho : Nat → Nat → List Nat → Option (Nat × Nat × List Nat) :=
  fun ctx _cap l => some (ctx, l.length, l)

/-- The `Z_NO_FLUSH` action code passed by `gz_strm::write` (line 55). -/
def Z_NO_FLUSH : Nat := 0

/-- The `BZ_RUN` action code passed by `bz_strm::write` (line 131). -/
def BZ_RUN : Nat := 0

/-- The `LZMA_RUN` action code passed by `lzma_strm::write` (line 207). -/
def LZMA_RUN : Nat := 0

/-- `gz_strm::write(buf, len)` (compress.cpp lines 54-56):
`return len ? write(buf, len, Z_NO_FLUSH) : 0;`.  The three-argument private
`write` (lines 91-113) drives the opaque zlib codec state `σ` in a
drain loop and is itself modelled as the opaque `inner`, returning the C++
return value (`len` or -1), the new codec state and the bytes forwarded to
the sink.  A zero-length call short-circuits before `inner` is ever
consulted. -/
def gz_strm.write {σ : Type} (inner : σ → List Nat → Nat → Int × σ × List Nat)
    (s : σ) (buf : List Nat) : Int × σ × List Nat :=
  if buf.length = 0 then (0, s, []) else inner s buf Z_NO_FLUSH

/-- `bz_strm::write(buf, len)` (compress.cpp lines 130-132):
`return len ? write(buf, len, BZ_RUN) : 0;` with the private bzip2 drain
loop (lines 167-189) as the opaque `inner`. -/
def bz_strm.write {σ : Type} (inner : σ → List Nat → Nat → Int × σ × List Nat)
    (s : σ) (buf : List Nat) : Int × σ × List Nat :=
  if buf.length = 0 then (0, s, []) else inner s buf BZ_RUN

/-- `lzma_strm::write(buf, len)` (compress.cpp lines 206-208):
`return len ? write(buf, len, LZMA_RUN) : 0;` with the private liblzma drain
loop (lines 250-264) as the opaque `inner`. -/
def lzma_strm.write {σ : Type} (inner : σ → List Nat → Nat → Int × σ × List Nat)
    (s : σ) (buf : List Nat) : Int × σ × List Nat :=
  if buf.length = 0 then (0, s, []) else inner s buf LZMA_RUN

/-- Modelled from the spec: the `format_t` enumeration lives in format.h,
which is not among the provided sources; spec section 3 enumerates the tags
{GZIP, BZIP2, XZ, LZMA-alone, LZ4-frame, LZ4-legacy, unknown}. -/
inductive format_t
  | GZIP
  | BZIP2
  | XZ
  | LZMA
  | LZ4
  | LZ4_LEGACY
  | UNKNOWN
deriving DecidableEq, Repr

/-- The concrete adapter classes a factory can instantiate (`new ...(fp)` in
compress.cpp lines 531-564).  The C++ factories return a `filter_stream *`
obtained from `new`, which never yields a null pointer; accordingly the
factories below are total functions into this type. -/
inductive adapter_t
  | gz_encoder
  | gz_decoder
  | bz_encoder
  | bz_decoder
  | xz_encoder
  | lzma_encoder
  | lzma_decoder
  | LZ4F_encoder
  | LZ4F_decoder
  | LZ4_encoder
  | LZ4_decoder
deriving DecidableEq, Repr

/-- `get_encoder` (compress.cpp lines 531-547): `case GZIP:` falls through to
`default:`, so GZIP and every tag outside the five explicit cases map to the
gzip encoder. -/
def get_encoder : format_t → adapter_t
  | .XZ => .xz_encoder
  | .LZMA => .lzma_encoder
  | .BZIP2 => .bz_encoder
  | .LZ4 => .LZ4F_encoder
  | .LZ4_LEGACY => .LZ4_encoder
  | .GZIP => .gz_encoder
  | .UNKNOWN => .gz_encoder

/-- `get_decoder` (compress.cpp lines 549-564): XZ and LZMA share the
universal `lzma_decoder`; `case GZIP:` falls through to `default:`. -/
def get_decoder : format_t → adapter_t
  | .XZ => .lzma_decoder
  | .LZMA => .lzma_decoder
  | .BZIP2 => .bz_decoder
  | .LZ4 => .LZ4F_decoder
  | .LZ4_LEGACY => .LZ4_decoder
  | .GZIP => .gz_decoder
  | .UNKNOWN => .gz_decoder

/-- Modelled from the spec: the `fmt2ext` canonical-extension table lives in
format.cpp/format.h, which are not among the provided sources; spec sections
3 and 8 give one canonical extension per non-unknown tag, with `".gz"` for
gzip as the worked example. -/
def fmt2ext : format_t → List Char
  | .GZIP => ['.', 'g', 'z']
  | .BZIP2 => ['.', 'b', 'z', '2']
  | .XZ => ['.', 'x', 'z']
  | .LZMA => ['.', 'l', 'z', 'm', 'a']
  | .LZ4 => ['.', 'l', 'z', '4']
  | .LZ4_LEGACY => ['.', 'l', 'z', '4']
  | .UNKNOWN => []

/-- `strrchr(infile, '.')` as used by `decompress` (compress.cpp line 592),
returning the split of the path at its last dot: `some (before, from-dot)`
where `from-dot` starts with the last `'.'` of the string, or `none` when
the path contains no dot. -/
def lastDotSplit : List Char → Option (List Char × List Char)
  | [] => none
  | c :: rest =>
    match lastDotSplit rest with
    | some (p, suf) => some (c :: p, suf)
    | none => if c = '.' then some ([], c :: rest) else none

/-- The output-path derivation of `decompress` when no explicit output is
given and the input is a real path (compress.cpp lines 588-598):
`ext = strrchr(infile, '.')`; if there is no dot or the tail from the last
dot differs from the format's canonical extension, fail with
"Input file is not a supported type!" (`none`); otherwise strip the
extension (`*ext = '\0'`) and use the prefix as the output path. -/
def deriveOutfile (ext : List Char) (infile : List Char) : Option (List Char) :=
  match lastDotSplit infile with
  | none => none
  | some (p, suf) => if suf = ext then some p else none

/-! ## Lemmas about the legacy LZ4 decoder loop -/

/-- The loop measure: every `step` iteration that leaves input unconsumed
strictly decreases it. -/
def LZ4_decoder.measure (s : LZ4_decoder) (input : List Nat) : Nat :=
  2 * input.length + (if s.block_sz = 0 then 1 else 2)

theorem LZ4_decoder.step_measure {dec : List Nat → Option (List Nat)}
    {s : LZ4_decoder} {input : List Nat} {s' : LZ4_decoder}
    {rest out : List Nat}
    (h : LZ4_decoder.step dec s input = some (s', rest, out))
    (hrest : ¬ rest.isEmpty) :
    LZ4_decoder.measure s' rest < LZ4_decoder.measure s input := by
  unfold LZ4_decoder.step at h
  split at h
  case isTrue hbs =>
    split at h
    · exact absurd h (by simp)
    case isFalse hlen =>
      obtain ⟨rfl, rfl, rfl⟩ : s' = _ ∧ rest = _ ∧ out = _ := by
        simpa using h.symm
      have h4 : 4 ≤ input.length := Nat.not_lt.mp hlen
      simp only [LZ4_decoder.measure, List.length_drop, hbs, if_pos rfl]
      split <;> omega
  case isFalse hbs =>
    split at h
    case isTrue hfull =>
      cases hdec : dec ((s.buffer ++ input.take (s.block_sz - s.buffer.length)).take s.block_sz) with
      | none => rw [hdec] at h; exact absurd h (by simp)
      | some o =>
        rw [hdec] at h
        obtain ⟨rfl, rfl, rfl⟩ : s' = _ ∧ rest = _ ∧ out = _ := by
          simpa using h.symm
        simp only [LZ4_decoder.measure, List.length_drop]
        rw [if_pos trivial, if_neg hbs]
        omega
    case isFalse hfull =>
      obtain ⟨rfl, rfl, rfl⟩ : s' = _ ∧ rest = _ ∧ out = _ := by
        simpa using h.symm
      simp at hrest

/-- Fuel does not matter once it exceeds the measure: the fuel-out branch of
`LZ4_decoder.loop` is unreachable from `LZ4_decoder.write`, whose fuel
`2 * input.length + 2` always bounds the measure. -/
theorem LZ4_decoder.loopFuel_irrelevant (dec : List Nat → Option (List Nat)) :
    ∀ f₁ f₂ (s : LZ4_decoder) (input : List Nat),
      LZ4_decoder.measure s input ≤ f₁ → LZ4_decoder.measure s input ≤ f₂ →
      LZ4_decoder.loop dec f₁ s input = LZ4_decoder.loop dec f₂ s input := by
  intro f₁
  induction f₁ with
  | zero =>
    intro f₂ s input h₁ _
    have : 0 < LZ4_decoder.measure s input := by
      simp only [LZ4_decoder.measure]; split <;> omega
    omega
  | succ n ih =>
    intro f₂ s input h₁ h₂
    cases f₂ with
    | zero =>
      have : 0 < LZ4_decoder.measure s input := by
        simp only [LZ4_decoder.measure]; split <;> omega
      omega
    | succ m =>
      rw [LZ4_decoder.loop, LZ4_decoder.loop]
      cases hstep : LZ4_decoder.step dec s input with
      | none => rfl
      | some r =>
        obtain ⟨s₁, rest, out₁⟩ := r
        by_cases hrest : rest.isEmpty
        · have hre : rest = [] := by simpa using hrest
          subst hre
          simp
        · have hm := LZ4_decoder.step_measure hstep hrest
          simp only [Option.some_bind, if_neg hrest]
          rw [ih m s₁ rest (by omega) (by omega)]

/-- `LZ4_decoder.step` preserves the fill invariant
`buffer.length ≤ block_sz`. -/
theorem LZ4_decoder.step_inv {dec : List Nat → Option (List Nat)}
    {s : LZ4_decoder} {input : List Nat} {s' : LZ4_decoder}
    {rest out : List Nat}
    (h : LZ4_decoder.step dec s input = some (s', rest, out))
    (hInv : s.buffer.length ≤ s.block_sz) :
    s'.buffer.length ≤ s'.block_sz := by
  unfold LZ4_decoder.step at h
  split at h
  case isTrue hbs =>
    split at h
    · exact absurd h (by simp)
    · obtain ⟨rfl, -, -⟩ : s' = _ ∧ rest = _ ∧ out = _ := by
        simpa using h.symm
      have : s.buffer.length = 0 := by omega
      simp [this]
  case isFalse hbs =>
    split at h
    case isTrue hfull =>
      cases hdec : dec ((s.buffer ++ input.take (s.block_sz - s.buffer.length)).take s.block_sz) with
      | none => rw [hdec] at h; exact absurd h (by simp)
      | some o =>
        rw [hdec] at h
        obtain ⟨rfl, -, -⟩ : s' = _ ∧ rest = _ ∧ out = _ := by
          simpa using h.symm
        simp
    case isFalse hfull =>
      obtain ⟨rfl, -, -⟩ : s' = _ ∧ rest = _ ∧ out = _ := by
        simpa using h.symm
      simp only [List.length_append]
      omega

/-- `LZ4_decoder.loop` preserves the fill invariant. -/
theorem LZ4_decoder.loop_inv (dec : List Nat → Option (List Nat)) :
    ∀ fuel (s : LZ4_decoder) (input : List Nat) (s' : LZ4_decoder)
      (out : List Nat), s.buffer.length ≤ s.block_sz →
      LZ4_decoder.loop dec fuel s input = some (s', out) →
      s'.buffer.length ≤ s'.block_sz := by
  intro fuel
  induction fuel with
  | zero => intro s input s' out _ h; exact absurd h (by simp [LZ4_decoder.loop])
  | succ n ih =>
    intro s input s' out hInv h
    rw [LZ4_decoder.loop] at h
    cases hstep : LZ4_decoder.step dec s input with
    | none => rw [hstep] at h; exact absurd h (by simp)
    | some r =>
      obtain ⟨s₁, rest, out₁⟩ := r
      rw [hstep] at h
      simp only [Option.some_bind] at h
      have hInv₁ := LZ4_decoder.step_inv hstep hInv
      by_cases hrest : rest.isEmpty
      · rw [if_pos hrest] at h
        obtain ⟨rfl, -⟩ : s' = s₁ ∧ out = out₁ := by simpa using h.symm
        exact hInv₁
      · rw [if_neg hrest] at h
        cases hloop : LZ4_decoder.loop dec n s₁ rest with
        | none => rw [hloop] at h; exact absurd h (by simp)
        | some r' =>
          obtain ⟨s₂, out₂⟩ := r'
          rw [hloop] at h
          obtain ⟨rfl, -⟩ : s' = s₂ ∧ out = out₁ ++ out₂ := by simpa using h.symm
          exact ih s₁ rest _ _ hInv₁ hloop

/-- Fuel does not matter for the encoder loop either, once it exceeds
`input.length` plus a constant: every flush iteration consumes at least one
input byte, except that an over-full buffer is reset exactly once, and the
accumulate branch is terminal; `LZ4_encoder.write` supplies
`input.length + 2`, which always suffices. -/
theorem LZ4_encoder.encLoopFuel_irrelevant (hc : List Nat → Option (List Nat)) :
    ∀ f₁ f₂ (buf input : List Nat),
      input.length + (if LZ4_UNCOMPRESSED ≤ buf.length then 2 else 1) ≤ f₁ →
      input.length + (if LZ4_UNCOMPRESSED ≤ buf.length then 2 else 1) ≤ f₂ →
      LZ4_encoder.loop hc f₁ buf input = LZ4_encoder.loop hc f₂ buf input := by
  intro f₁
  induction f₁ with
  | zero =>
    intro f₂ buf input h₁ _
    exfalso
    revert h₁
    split <;> omega
  | succ n ih =>
    intro f₂ buf input h₁ h₂
    cases f₂ with
    | zero =>
      exfalso
      revert h₂
      split <;> omega
    | succ m =>
      have hL : 0 < LZ4_UNCOMPRESSED := by decide
      rw [LZ4_encoder.loop, LZ4_encoder.loop]
      by_cases hcond : LZ4_UNCOMPRESSED ≤ buf.length + input.length
      · rw [if_pos hcond, if_pos hcond]
        cases hhc : hc ((buf ++ input.take (LZ4_UNCOMPRESSED - buf.length)).take LZ4_UNCOMPRESSED) with
        | none => simp only [hhc]
        | some cdata =>
          simp only [hhc]
          by_cases hrest : (input.drop (LZ4_UNCOMPRESSED - buf.length)).isEmpty
          · rw [if_pos hrest, if_pos hrest]
          · rw [if_neg hrest, if_neg hrest]
            have hne : input.drop (LZ4_UNCOMPRESSED - buf.length) ≠ [] := by
              simpa using hrest
            have hpos : 0 < (input.drop (LZ4_UNCOMPRESSED - buf.length)).length :=
              List.length_pos.mpr hne
            have hlen : (input.drop (LZ4_UNCOMPRESSED - buf.length)).length =
                input.length - (LZ4_UNCOMPRESSED - buf.length) :=
              List.length_drop _ _
            have hrec := ih m [] (input.drop (LZ4_UNCOMPRESSED - buf.length))
              (by
                simp only [List.length_nil]
                rw [if_neg (by omega)]
                by_cases hbl : LZ4_UNCOMPRESSED ≤ buf.length
                · rw [if_pos hbl] at h₁; omega
                · rw [if_neg hbl] at h₁; omega)
              (by
                simp only [List.length_nil]
                rw [if_neg (by omega)]
                by_cases hbl : LZ4_UNCOMPRESSED ≤ buf.length
                · rw [if_pos hbl] at h₂; omega
                · rw [if_neg hbl] at h₂; omega)
            rw [hrec]
      · rw [if_neg hcond, if_neg hcond]

/-! ## Claim theorems -/

/-- Claim C1: the claim asserts that delivering any byte sequence as 1-byte
`write` calls produces sink output identical to a single `write` call for
every format, and in particular that the legacy LZ4 decoder's 4-byte magic
skip and 4-byte length reads tolerate a `write` call holding fewer than 4
bytes.  The code does not: on the 9-byte legacy stream
`02 21 4C 18 | 01 00 00 00 | 05` a single `write` succeeds and forwards the
decompressed block, while nine 1-byte `write` calls hit the unguarded
`size -= 4` magic skip with `size = 1`, underflowing `size_t` (undefined
behavior, `none` in the model).  The spec's requirement is the intent (the
multiplexer itself feeds 4096-byte windows whose boundaries can split a
length prefix), so this is a bug in the code. -/
theorem lz4_legacy_one_byte_writes_diverge :
    LZ4_decoder.writes idDec ⟨false, 0, []⟩
      [[0x02], [0x21], [0x4c], [0x18], [1], [0], [0], [0], [5]] = none ∧
    LZ4_decoder.write idDec ⟨false, 0, []⟩
      [0x02, 0x21, 0x4c, 0x18, 1, 0, 0, 0, 5] = some (⟨true, 0, []⟩, [5]) := by
  decide

/-- Claim C2 counterexample: closing the legacy LZ4 encoder with an empty
accumulation buffer does not emit a final block record: with no `write` ever
issued, the entire close output is the bare 4-byte total `00 00 00 00` -
shorter than the ≥ 8 bytes any block record (4-byte length prefix) plus
4-byte total would occupy, and not preceded by the magic, which only a
`write` call emits.  This refutes "close always emits a final block ... even
when that buffer holds zero bytes" and "encoding an empty input yields
magic, an empty-input block record, and a trailing total of 0". -/
theorem lz4_encoder_empty_close_only_total :
    LZ4_encoder.finish hcCons (LZ4_encoder.writes hcCons ⟨false, [], 0⟩ []).1 =
      [0, 0, 0, 0] ∧
    ¬ lz4_magic <+:
      LZ4_encoder.finish hcCons (LZ4_encoder.writes hcCons ⟨false, [], 0⟩ []).1 ∧
    (LZ4_encoder.finish hcCons (LZ4_encoder.writes hcCons ⟨false, [], 0⟩ []).1).length < 8 := by
  decide

/-- A run of `write` calls that all carry zero bytes leaves the accumulation
buffer and the running total of the legacy LZ4 encoder untouched (each such
call returns before reaching `in_total += size` and the compression loop). -/
theorem LZ4_encoder.writes_all_empty (hc : List Nat → Option (List Nat)) :
    ∀ (chunks : List (List Nat)) (s : LZ4_encoder), (∀ c ∈ chunks, c = []) →
      (LZ4_encoder.writes hc s chunks).1.buf = s.buf ∧
      (LZ4_encoder.writes hc s chunks).1.in_total = s.in_total := by
  intro chunks
  induction chunks with
  | nil => intro s _; exact ⟨rfl, rfl⟩
  | cons c cs ih =>
    intro s hall
    have hc0 : c = [] := hall c (by simp)
    subst hc0
    have hrec := ih ⟨true, s.buf, s.in_total⟩ fun d hd => hall d (by simp [hd])
    simpa [LZ4_encoder.writes, LZ4_encoder.write] using hrec

/-- Claim C2, amended: on `close`, the leftover accumulation buffer is
compressed and emitted as a final block only when it is nonempty
(`if (buf_off)`); the 4-byte running total is emitted unconditionally and
exactly once.  If the encoder never received any data the close output is
just the 4-byte total 0 - no block record, and no magic either, since the
magic is emitted by the first `write` call, not by `close`. -/
theorem lz4_encoder_close_trailer (hc : List Nat → Option (List Nat))
    (chunks : List (List Nat)) :
    LZ4_encoder.finish hc (LZ4_encoder.writes hc ⟨false, [], 0⟩ chunks).1 =
      (if (LZ4_encoder.writes hc ⟨false, [], 0⟩ chunks).1.buf = [] then []
       else
         le32 ((hc (LZ4_encoder.writes hc ⟨false, [], 0⟩ chunks).1.buf).getD []).length ++
           (hc (LZ4_encoder.writes hc ⟨false, [], 0⟩ chunks).1.buf).getD []) ++
        le32 (LZ4_encoder.writes hc ⟨false, [], 0⟩ chunks).1.in_total ∧
    ((∀ c ∈ chunks, c = []) →
      LZ4_encoder.finish hc (LZ4_encoder.writes hc ⟨false, [], 0⟩ chunks).1 =
        [0, 0, 0, 0]) := by
  constructor
  · generalize (LZ4_encoder.writes hc ⟨false, [], 0⟩ chunks).1 = s
    by_cases hb : s.buf = [] <;> simp [LZ4_encoder.finish, hb]
  · intro hall
    obtain ⟨hbuf, htot⟩ := LZ4_encoder.writes_all_empty hc chunks ⟨false, [], 0⟩ hall
    simp only [LZ4_encoder.finish, hbuf, htot]
    simp [le32]

/-- Witness for `lz4_encoder_close_trailer` at the concrete run consisting of
one zero-length `write` call. -/
theorem lz4_encoder_close_trailer_witness :
    (∀ c ∈ ([[]] : List (List Nat)), c = []) ∧
    LZ4_encoder.finish hcCons (LZ4_encoder.writes hcCons ⟨false, [], 0⟩ [[]]).1 =
      [0, 0, 0, 0] :=
  ⟨by decide, (lz4_encoder_close_trailer hcCons [[]]).2 (by decide)⟩

/-- When the accumulation buffer holds `LZ4_UNCOMPRESSED - 1` bytes, one more
input byte triggers a full-block flush; with `LZ4_compress_HC` failing, the
encoder's `write` returns `false`, i.e. the int 0. -/
theorem lz4hc_failure_returns_zero (buf : List Nat)
    (hlen : buf.length = LZ4_UNCOMPRESSED - 1) :
    (LZ4_encoder.write hcFail ⟨true, buf, 0⟩ [0]).1 = 0 := by
  have hloop : ∀ n, (LZ4_encoder.loop hcFail (n + 1) buf [0]).1 = false := by
    intro n
    rw [LZ4_encoder.loop]
    rw [if_pos (by simp only [hlen, List.length_singleton]; omega)]
    simp [hcFail]
  have h3 : ([0] : List Nat).length + 2 = 2 + 1 := rfl
  simp only [LZ4_encoder.write]
  rw [if_neg (by decide : ¬([0] : List Nat).length = 0)]
  simp only [h3, hloop 2]
  simp

/-- Claim C3: the claim asserts that every write failure reported by an
adapter - including an LZ4-HC block compression failure inside the legacy
LZ4 encoder - is detected by the multiplexer loop and aborts the operation.
The decoder-side failures do return -1, but `LZ4_encoder::write` signals an
LZ4-HC failure with `return false`, i.e. the int 0, and the multiplexer's
check `if (strm->write(buf, len) < 0)` does not fire on 0: the failure is
silently swallowed.  Here the encoder holds `0x7FFFFF` buffered bytes; one
more byte triggers a full 8 MiB block flush whose `LZ4_compress_HC` fails
(`hcFail`), and the resulting return value 0 does not trip `write_failed`.
The claim matches the evident intent (the sibling adapters return -1, and
the failure is logged as an error), so this is a bug in the code. -/
theorem lz4hc_failure_not_detected :
    (LZ4_encoder.write hcFail
      ⟨true, List.replicate (LZ4_UNCOMPRESSED - 1) 0, 0⟩ [0]).1 = 0 ∧
    write_failed (LZ4_encoder.write hcFail
      ⟨true, List.replicate (LZ4_UNCOMPRESSED - 1) 0, 0⟩ [0]).1 = false := by
  have hw := lz4hc_failure_returns_zero (List.replicate (LZ4_UNCOMPRESSED - 1) 0)
    (by rw [List.length_replicate])
  exact ⟨hw, by rw [hw]; decide⟩

/-- Claim C4 counterexample: a 7-byte frame header split 4+3 across the first
two `write` calls does not decode.  With the library primitives instantiated
as `gfiMin`/`dcmpEcho` (a stored frame with a 7-byte header), delivering the
9 bytes in one call yields the 2-byte payload, but delivering the first 4
bytes alone makes `LZ4F_getFrameInfo` report an incomplete header; the
adapter ignores that error and switches on the unfilled `blockSizeID`
(undefined behavior, `none` in the model).  This refutes "decoding still
succeeds and the sink output equals that of delivering the same bytes in a
single write call". -/
theorem lz4f_header_straddle_diverges :
    LZ4F_decoder.writes gfiMin dcmpEcho 5 ⟨none, 0⟩
      [[1, 2, 3, 4], [5, 6, 7, 9, 9]] = none ∧
    LZ4F_decoder.write gfiMin dcmpEcho 5 ⟨none, 0⟩
      [1, 2, 3, 4, 5, 6, 7, 9, 9] = some (⟨some (2 ^ 22), 0⟩, [9, 9]) := by
  decide

/-- Claim C4, amended: the LZ4 frame decoder parses the frame header only
from the first `write` call (once `outbuf` is allocated, later calls never
consult `LZ4F_getFrameInfo`); if that first call does not contain the
complete header, the error from the header probe is ignored and the
block-size switch reads an unset field - undefined behavior instead of the
claimed straddling-tolerant decode. -/
theorem lz4f_header_parsed_only_in_first_write
    (gfi gfi' : List Nat → Option (Nat × Nat))
    (dcmp : Nat → Nat → List Nat → Option (Nat × Nat × List Nat))
    (fuel ctx : Nat) (input : List Nat) (h : gfi input = none) :
    LZ4F_decoder.write gfi dcmp fuel ⟨none, ctx⟩ input = none ∧
    ∀ cap ctx', LZ4F_decoder.write gfi dcmp fuel ⟨some cap, ctx'⟩ input =
      LZ4F_decoder.write gfi' dcmp fuel ⟨some cap, ctx'⟩ input := by
  constructor
  · simp [LZ4F_decoder.write, h]
  · intro cap ctx'
    rfl

/-- Witness for `lz4f_header_parsed_only_in_first_write`: the concrete header
probe `gfiMin` fails on a single-byte first call. -/
theorem lz4f_header_parsed_only_in_first_write_witness :
    gfiMin [1] = none ∧
    (LZ4F_decoder.write gfiMin dcmpEcho 1 ⟨none, 0⟩ [1] = none ∧
     ∀ cap ctx', LZ4F_decoder.write gfiMin dcmpEcho 1 ⟨some cap, ctx'⟩ [1] =
       LZ4F_decoder.write (fun _ => none) dcmpEcho 1 ⟨some cap, ctx'⟩ [1]) :=
  ⟨by decide,
   lz4f_header_parsed_only_in_first_write gfiMin (fun _ => none) dcmpEcho 1 0 [1]
     (by decide)⟩

/-- Claim C5 counterexample: after a successful `close`, the base `FILE *` of
the adapter is null; a second `close` unconditionally reruns `finish()` -
whose `bwrite` of the 4-byte trailer goes through the null handle - and then
`fclose(nullptr)`: undefined behavior (`none`), not the claimed harmless
no-op.  Only destruction is guarded (`destroy() { if (fp) finish(); }`). -/
theorem lz4_encoder_double_close_crashes :
    LZ4_encoder.close hcCons ⟨⟨false, [], 0⟩, true⟩ =
      some (⟨⟨false, [], 0⟩, false⟩, [0, 0, 0, 0]) ∧
    LZ4_encoder.close hcCons ⟨⟨false, [], 0⟩, false⟩ = none := by
  decide

/-- Claim C5, amended: destroying the adapter after a successful `close` is
safe and emits nothing - `close` nulls the base handle, and the destructor's
`destroy` runs `finish` only while the handle is non-null.  Calling `close` a
second time, however, is not supported: it reruns `finish` and `fclose` on
the nulled handle. -/
theorem lz4_encoder_destroy_after_close_silent
    (hc : List Nat → Option (List Nat)) (c c' : cpr_stream LZ4_encoder)
    (out : List Nat) (h : LZ4_encoder.close hc c = some (c', out)) :
    c'.fp = false ∧ LZ4_encoder.destroy hc c' = [] := by
  unfold LZ4_encoder.close at h
  by_cases hfp : c.fp
  · rw [if_pos hfp] at h
    obtain ⟨rfl, -⟩ : c' = ⟨c.inner, false⟩ ∧ out = LZ4_encoder.finish hc c.inner := by
      simpa using h.symm
    exact ⟨rfl, by simp [LZ4_encoder.destroy]⟩
  · rw [if_neg hfp] at h
    exact absurd h (by simp)

/-- Witness for `lz4_encoder_destroy_after_close_silent` at a concrete closed
adapter. -/
theorem lz4_encoder_destroy_after_close_silent_witness :
    (⟨⟨false, [], 0⟩, false⟩ : cpr_stream LZ4_encoder).fp = false ∧
    LZ4_encoder.destroy hcCons ⟨⟨false, [], 0⟩, false⟩ = [] :=
  lz4_encoder_destroy_after_close_silent hcCons ⟨⟨false, [], 0⟩, true⟩
    ⟨⟨false, [], 0⟩, false⟩ [0, 0, 0, 0] (by decide)

/-- One `write` call bumps `in_total` by the call's length modulo `2 ^ 32`,
keeping it reduced. -/
theorem LZ4_encoder.write_in_total (hc : List Nat → Option (List Nat))
    (s : LZ4_encoder) (input : List Nat) (hlt : s.in_total < 2 ^ 32) :
    (LZ4_encoder.write hc s input).2.1.in_total =
      (s.in_total + input.length) % 2 ^ 32 ∧
    (LZ4_encoder.write hc s input).2.1.in_total < 2 ^ 32 := by
  simp only [LZ4_encoder.write]
  by_cases hl : input.length = 0
  · rw [if_pos hl, hl]
    exact ⟨(Nat.mod_eq_of_lt (by simpa using hlt)).symm, hlt⟩
  · rw [if_neg hl]
    exact ⟨rfl, Nat.mod_lt _ (by norm_num)⟩

/-- Folding any sequence of `write` calls: `in_total` is the sum of the
lengths of all bytes ever passed to `write`, reduced modulo `2 ^ 32`. -/
theorem LZ4_encoder.writes_in_total (hc : List Nat → Option (List Nat)) :
    ∀ (chunks : List (List Nat)) (s : LZ4_encoder), s.in_total < 2 ^ 32 →
      (LZ4_encoder.writes hc s chunks).1.in_total =
        (s.in_total + (chunks.map List.length).sum) % 2 ^ 32 := by
  intro chunks
  induction chunks with
  | nil =>
    intro s hlt
    simpa [LZ4_encoder.writes] using (Nat.mod_eq_of_lt hlt).symm
  | cons c cs ih =>
    intro s hlt
    obtain ⟨heq, hlt'⟩ := LZ4_encoder.write_in_total hc s c hlt
    simp only [LZ4_encoder.writes]
    rw [ih (LZ4_encoder.write hc s c).2.1 hlt', heq, Nat.mod_add_mod,
      List.map_cons, List.sum_cons, Nat.add_assoc]

/-- Claim C6: the trailing 4-byte total emitted at close equals the sum of
the lengths of all byte buffers ever passed to `write`, computed in unsigned
32-bit arithmetic (wrapping modulo `2 ^ 32`), regardless of how the input
was partitioned into `write` calls: the right-hand side depends only on the
total length.  `in_total += size` runs before the compression loop, so even
chunks whose compression fails are counted, and zero-length calls return
early, adding nothing. -/
theorem lz4_encoder_trailer_total (hc : List Nat → Option (List Nat))
    (chunks : List (List Nat)) :
    (LZ4_encoder.writes hc ⟨false, [], 0⟩ chunks).1.in_total =
      (chunks.map List.length).sum % 2 ^ 32 ∧
    ∃ pre, LZ4_encoder.finish hc (LZ4_encoder.writes hc ⟨false, [], 0⟩ chunks).1 =
      pre ++ le32 ((chunks.map List.length).sum % 2 ^ 32) := by
  have h0 : (LZ4_encoder.writes hc ⟨false, [], 0⟩ chunks).1.in_total =
      (chunks.map List.length).sum % 2 ^ 32 := by
    simpa using LZ4_encoder.writes_in_total hc chunks ⟨false, [], 0⟩ (by norm_num)
  refine ⟨h0, ?_⟩
  rw [LZ4_encoder.finish, h0]
  exact ⟨_, rfl⟩

/-- Claim C8: for the legacy LZ4 block-container decoder, the invariant
`partial-block-fill-offset ≤ current-block-expected-size` is preserved by
every successful `write` call, and whenever the accumulated fill plus the
incoming bytes reach the expected block size, the iteration decompresses the
assembled block as one unit (`LZ4_decompress_safe` on exactly `block_sz`
bytes), forwards the result to the sink, and resets the accumulator
(`buf_off = 0; block_sz = 0`) to await the next 4-byte length prefix. -/
theorem lz4_decoder_fill_invariant (dec : List Nat → Option (List Nat))
    (s : LZ4_decoder) (input : List Nat) (s' : LZ4_decoder) (out : List Nat)
    (hInv : s.buffer.length ≤ s.block_sz)
    (h : LZ4_decoder.write dec s input = some (s', out)) :
    s'.buffer.length ≤ s'.block_sz ∧
    (s.block_sz ≠ 0 → s.block_sz ≤ s.buffer.length + input.length →
      LZ4_decoder.step dec s input =
        (dec ((s.buffer ++ input.take (s.block_sz - s.buffer.length)).take s.block_sz)).map
          fun o => (⟨s.init, 0, []⟩, input.drop (s.block_sz - s.buffer.length), o)) := by
  constructor
  · unfold LZ4_decoder.write at h
    by_cases hi : s.init
    · rw [if_pos hi] at h
      exact LZ4_decoder.loop_inv dec _ s input s' out hInv h
    · rw [if_neg hi] at h
      by_cases hl : input.length < 4
      · rw [if_pos hl] at h
        exact absurd h (by simp)
      · rw [if_neg hl] at h
        exact LZ4_decoder.loop_inv dec _ ⟨true, s.block_sz, s.buffer⟩ (input.drop 4)
          s' out hInv h
  · intro hbs hfull
    unfold LZ4_decoder.step
    rw [if_neg hbs, if_pos hfull]

/-- Witness for `lz4_decoder_fill_invariant`: a decoder expecting a 2-byte
block with 1 byte already buffered receives the final byte; the block is
decompressed and the accumulator resets. -/
theorem lz4_decoder_fill_invariant_witness :
    (⟨true, 2, [9]⟩ : LZ4_decoder).buffer.length ≤
      (⟨true, 2, [9]⟩ : LZ4_decoder).block_sz ∧
    LZ4_decoder.write idDec ⟨true, 2, [9]⟩ [7] = some (⟨true, 0, []⟩, [9, 7]) ∧
    ((⟨true, 0, []⟩ : LZ4_decoder).buffer.length ≤
       (⟨true, 0, []⟩ : LZ4_decoder).block_sz ∧
     ((⟨true, 2, [9]⟩ : LZ4_decoder).block_sz ≠ 0 →
      (⟨true, 2, [9]⟩ : LZ4_decoder).block_sz ≤
        (⟨true, 2, [9]⟩ : LZ4_decoder).buffer.length + ([7] : List Nat).length →
      LZ4_decoder.step idDec ⟨true, 2, [9]⟩ [7] =
        (idDec ((([9] : List Nat) ++ ([7] : List Nat).take
            (2 - ([9] : List Nat).length)).take 2)).map
          fun o => (⟨true, 0, []⟩, ([7] : List Nat).drop
            (2 - ([9] : List Nat).length), o))) :=
  ⟨by decide, by decide,
   lz4_decoder_fill_invariant idDec ⟨true, 2, [9]⟩ [7] ⟨true, 0, []⟩ [9, 7]
     (by decide) (by decide)⟩

/-- Claim C9: for each of the gzip, bzip2 and LZMA/XZ adapters, a
zero-length `write` call is a no-op: it returns 0, forwards nothing to the
sink, and leaves the codec state unchanged - the result is the same for
every possible behavior `inner` of the underlying codec drain loop, so the
codec is never invoked. -/
theorem zero_length_write_is_noop {σ : Type}
    (inner : σ → List Nat → Nat → Int × σ × List Nat) (s : σ) :
    gz_strm.write inner s [] = (0, s, []) ∧
    bz_strm.write inner s [] = (0, s, []) ∧
    lzma_strm.write inner s [] = (0, s, []) :=
  ⟨rfl, rfl, rfl⟩

/-- Claim C10: both factories are total - every tag yields an adapter (`new`
never returns null) - and any tag outside {XZ, LZMA, BZIP2, LZ4, LZ4_LEGACY}
(GZIP itself included, via its fall-through into `default:`) is mapped to
the gzip adapter rather than rejected; the five explicit cases map to their
dedicated adapters, with XZ and LZMA sharing the universal lzma decoder. -/
theorem factories_total_default_gzip :
    (∀ t : format_t,
      t ∉ [format_t.XZ, format_t.LZMA, format_t.BZIP2, format_t.LZ4,
        format_t.LZ4_LEGACY] →
      get_encoder t = adapter_t.gz_encoder ∧ get_decoder t = adapter_t.gz_decoder) ∧
    get_encoder format_t.XZ = adapter_t.xz_encoder ∧
    get_encoder format_t.LZMA = adapter_t.lzma_encoder ∧
    get_encoder format_t.BZIP2 = adapter_t.bz_encoder ∧
    get_encoder format_t.LZ4 = adapter_t.LZ4F_encoder ∧
    get_encoder format_t.LZ4_LEGACY = adapter_t.LZ4_encoder ∧
    get_decoder format_t.XZ = adapter_t.lzma_decoder ∧
    get_decoder format_t.LZMA = adapter_t.lzma_decoder ∧
    get_decoder format_t.BZIP2 = adapter_t.bz_decoder ∧
    get_decoder format_t.LZ4 = adapter_t.LZ4F_decoder ∧
    get_decoder format_t.LZ4_LEGACY = adapter_t.LZ4_decoder := by
  refine ⟨?_, rfl, rfl, rfl, rfl, rfl, rfl, rfl, rfl, rfl, rfl⟩
  intro t ht
  cases t <;> first
    | exact ⟨rfl, rfl⟩
    | exact absurd (by decide) ht

/-- Witness for `factories_total_default_gzip` at the UNKNOWN tag. -/
theorem factories_total_default_gzip_witness :
    format_t.UNKNOWN ∉ [format_t.XZ, format_t.LZMA, format_t.BZIP2,
      format_t.LZ4, format_t.LZ4_LEGACY] ∧
    get_encoder format_t.UNKNOWN = adapter_t.gz_encoder ∧
    get_decoder format_t.UNKNOWN = adapter_t.gz_decoder :=
  ⟨by decide, (factories_total_default_gzip.1 format_t.UNKNOWN (by decide)).1,
   (factories_total_default_gzip.1 format_t.UNKNOWN (by decide)).2⟩

/-- `lastDotSplit` splits its argument: the two components concatenate back
to the input. -/
theorem lastDotSplit_append :
    ∀ {s p suf : List Char}, lastDotSplit s = some (p, suf) → s = p ++ suf := by
  intro s
  induction s with
  | nil => intro p suf h; exact absurd h (by simp [lastDotSplit])
  | cons c rest ih =>
    intro p suf h
    rw [lastDotSplit] at h
    split at h
    next a b heq =>
      obtain ⟨rfl, rfl⟩ : p = c :: a ∧ suf = b := by simpa using h.symm
      simp [ih heq]
    next heq =>
      split at h
      next hc =>
        obtain ⟨rfl, rfl⟩ : p = [] ∧ suf = c :: rest := by simpa using h.symm
        rfl
      next hc => exact absurd h (by simp)

/-- A string with no dot has no last-dot split. -/
theorem lastDotSplit_eq_none :
    ∀ {e : List Char}, '.' ∉ e → lastDotSplit e = none := by
  intro e
  induction e with
  | nil => intro _; rfl
  | cons c rest ih =>
    intro h
    have hc : ¬ c = '.' := fun hh => h (by simp [hh])
    have hrest : '.' ∉ rest := fun hh => h (by simp [hh])
    rw [lastDotSplit, ih hrest, if_neg hc]

/-- When the tail after the suffix's dot contains no further dot, the last
dot of `q ++ '.' :: e` is exactly that dot. -/
theorem lastDotSplit_of_suffix {e : List Char} (hdot : '.' ∉ e) :
    ∀ q : List Char, lastDotSplit (q ++ '.' :: e) = some (q, '.' :: e) := by
  intro q
  induction q with
  | nil =>
    rw [List.nil_append, lastDotSplit, lastDotSplit_eq_none hdot, if_pos rfl]
  | cons c q' ih =>
    rw [List.cons_append, lastDotSplit, ih]

/-- A string with no last-dot split contains no dot at all. -/
theorem not_mem_of_lastDotSplit_eq_none :
    ∀ {s : List Char}, lastDotSplit s = none → '.' ∉ s := by
  intro s
  induction s with
  | nil => intro _; simp
  | cons c rest ih =>
    intro h
    rw [lastDotSplit] at h
    split at h
    next a b heq => exact absurd h (by simp)
    next heq =>
      split at h
      next hc => exact absurd h (by simp)
      next hc =>
        intro hm
        rcases List.mem_cons.mp hm with h1 | h2
        · exact hc h1.symm
        · exact ih heq h2

/-- The derivation of `decompress`'s output path, for an extension of the
canonical shape (a dot followed by a dot-free tail): it succeeds exactly on
the path with the extension stripped, and fails exactly when the extension
is not a suffix of the path. -/
theorem deriveOutfile_spec (e : List Char) (s : List Char) (hdot : '.' ∉ e) :
    (∀ out, deriveOutfile ('.' :: e) s = some out ↔ s = out ++ '.' :: e) ∧
    (deriveOutfile ('.' :: e) s = none ↔ ¬ ('.' :: e) <:+ s) := by
  constructor
  · intro out
    constructor
    · intro h
      unfold deriveOutfile at h
      split at h
      next heq => exact absurd h (by simp)
      next a b heq =>
        split at h
        next hsuf =>
          obtain rfl : a = out := by simpa using h
          rw [lastDotSplit_append heq, hsuf]
        next hsuf => exact absurd h (by simp)
    · intro h
      subst h
      unfold deriveOutfile
      rw [lastDotSplit_of_suffix hdot out]
      simp
  · constructor
    · intro h hsuffix
      obtain ⟨t, rfl⟩ := hsuffix
      rw [deriveOutfile, lastDotSplit_of_suffix hdot t] at h
      simp at h
    · intro h
      unfold deriveOutfile
      split
      next heq => rfl
      next a b heq =>
        have hb : ¬ b = '.' :: e := by
          intro hsuf
          exact h ⟨a, by rw [lastDotSplit_append heq, hsuf]⟩
        rw [if_neg hb]

/-- Claim C7: when `decompress` is called without an explicit output on a
real input path, the output path is the input with the detected format's
canonical extension stripped (`"archive.gz"` yields `"archive"`), and a path
whose suffix does not match that extension exactly fails with the
unsupported-type error (`LOGE("Input file is not a supported type!")`)
instead of guessing.  The comparison in the source is against the tail from
the last dot, which for the canonical dot-free-tail extensions coincides
with exact suffix matching. -/
theorem decompress_outfile_derivation (f : format_t) (s : List Char)
    (hf : f ≠ format_t.UNKNOWN) :
    (∀ out, deriveOutfile (fmt2ext f) s = some out ↔ s = out ++ fmt2ext f) ∧
    (deriveOutfile (fmt2ext f) s = none ↔ ¬ fmt2ext f <:+ s) := by
  obtain ⟨e, he, hdot⟩ : ∃ e, fmt2ext f = '.' :: e ∧ '.' ∉ e := by
    cases f <;> first
      | exact ⟨_, rfl, by decide⟩
      | exact absurd rfl hf
  rw [he]
  exact deriveOutfile_spec e s hdot

/-- Witness for `decompress_outfile_derivation`: decompressing
`"archive.gz"` with the detected gzip format derives the output path
`"archive"`. -/
theorem decompress_outfile_derivation_witness :
    format_t.GZIP ≠ format_t.UNKNOWN ∧
    ((∀ out, deriveOutfile (fmt2ext format_t.GZIP) "archive.gz".toList = some out ↔
        "archive.gz".toList = out ++ fmt2ext format_t.GZIP) ∧
     (deriveOutfile (fmt2ext format_t.GZIP) "archive.gz".toList = none ↔
        ¬ fmt2ext format_t.GZIP <:+ "archive.gz".toList)) :=
  ⟨by decide,
   decompress_outfile_derivation format_t.GZIP "archive.gz".toList (by decide)⟩

end Magiskboot
